import Mathlib

/-!
Verification of the obstacle-aware path-planning core of the
`drone_path_planner_A-` repository (files `astar_pathfinding.py` and
`obstacle_manager.py`), shallowly embedded in Lean 4.

Conventions of the embedding:
* Python floats are modelled as exact rationals (`ℚ`).
* The transcendental library calls `math.sqrt x` and
  `math.cos (math.radians x)` are modelled as oracle parameters
  `sqrtO cosO : ℚ → ℚ`, threaded through every definition that the
  source reaches them from.  Statements either hold for every oracle or
  are evaluated at concrete oracles chosen so that the exact value and
  the float value agree on the inputs actually used.
* Python's `int()` truncation toward zero is `pyInt`.
* The unbounded `while` loops of the source (`A*` main loop, Bresenham,
  path smoothing) take an explicit fuel argument; concrete evaluations
  use ample fuel, and every structural theorem is quantified over fuel.
-/

attribute [local semireducible] Rat.mul Rat.add Rat.sub Rat.inv

/-- Python `int()` applied to a rational value: truncation toward zero. -/
def pyInt (q : ℚ) : ℤ := Int.tdiv q.num (q.den : ℤ)

/-- Python `min` of a nonempty list (`min(lats)`); `0` on the empty list,
which the source never reaches. -/
def pymin : List ℚ → ℚ
  | [] => 0
  | a :: l => l.foldl min a

/-- Python `max` of a nonempty list (`max(lats)`); `0` on the empty list,
which the source never reaches. -/
def pymax : List ℚ → ℚ
  | [] => 0
  | a :: l => l.foldl max a

/-- The edge list `(polygon[i], polygon[(i+1) % n])`, `i = 0 .. n-1`,
traversed by the ray-casting loops of `GridMap._point_in_polygon` and
`ObstacleManager.point_in_polygon` (both have the identical body). -/
def polygon_edges (poly : List (ℚ × ℚ)) : List ((ℚ × ℚ) × (ℚ × ℚ)) :=
  match poly with
  | [] => []
  | p :: _ => poly.zip (poly.tail ++ [p])

/-- One edge step of the ray-casting loop, run faithfully: the Python
local variable `xinters` is modelled explicitly as `Option ℚ`
(`none` = not yet assigned; it is assigned exactly when `p1_lon != p2_lon`
inside the window, with the value inlined at each use site), and
evaluating `lat <= xinters` while it is unassigned is the error case,
signalled by the outer `none`. -/
def pip_edge_run (lat lon : ℚ) (st : Bool × Option ℚ) (p1 p2 : ℚ × ℚ) :
    Option (Bool × Option ℚ) :=
  if lon > min p1.2 p2.2 then
    if lon ≤ max p1.2 p2.2 then
      if lat ≤ max p1.1 p2.1 then
        if p1.2 ≠ p2.2 then
          if p1.1 = p2.1 then
            some (!st.1, some ((lon - p1.2) * (p2.1 - p1.1) / (p2.2 - p1.2) + p1.1))
          else if lat ≤ (lon - p1.2) * (p2.1 - p1.1) / (p2.2 - p1.2) + p1.1 then
            some (!st.1, some ((lon - p1.2) * (p2.1 - p1.1) / (p2.2 - p1.2) + p1.1))
          else some (st.1, some ((lon - p1.2) * (p2.1 - p1.1) / (p2.2 - p1.2) + p1.1))
        else
          if p1.1 = p2.1 then some (!st.1, st.2)
          else
            match st.2 with
            | none => none
            | some xi => if lat ≤ xi then some (!st.1, st.2) else some (st.1, st.2)
      else some st
    else some st
  else some st

/-- Faithful run of the whole ray-casting loop; `none` means the Python
code would raise (empty polygon, or a read of the unassigned `xinters`). -/
def point_in_polygon_run (point : ℚ × ℚ) (poly : List (ℚ × ℚ)) : Option Bool :=
  match poly with
  | [] => none
  | _ :: _ =>
    ((polygon_edges poly).foldlM
      (fun st e => pip_edge_run point.1 point.2 st e.1 e.2) (false, none)).map Prod.fst

/-- Total ray-casting edge step: an edge vertical in longitude inside the
longitude window is skipped with the flag unchanged.  Theorem `c6` below
shows this agrees with the faithful run `point_in_polygon_run` on every
nonempty polygon, because a vertical edge can never enter the window. -/
def pip_edge (lat lon : ℚ) (inside : Bool) (p1 p2 : ℚ × ℚ) : Bool :=
  if lon > min p1.2 p2.2 ∧ lon ≤ max p1.2 p2.2 ∧ lat ≤ max p1.1 p2.1 then
    if p1.2 = p2.2 then inside
    else if p1.1 = p2.1 ∨ lat ≤ (lon - p1.2) * (p2.1 - p1.1) / (p2.2 - p1.2) + p1.1
      then !inside
    else inside
  else inside

/-- Embeds `GridMap._point_in_polygon` / `ObstacleManager.point_in_polygon`
(identical bodies in the source), as a total boolean function. -/
def point_in_polygon (point : ℚ × ℚ) (poly : List (ℚ × ℚ)) : Bool :=
  (polygon_edges poly).foldl (fun ins e => pip_edge point.1 point.2 ins e.1 e.2) false

/-- State of a `GridMap` object: bounds, resolution, derived grid extents,
and the occupancy grid (`true` = obstacle). -/
structure GridMap where
  min_lat : ℚ
  max_lat : ℚ
  min_lon : ℚ
  max_lon : ℚ
  resolution : ℚ
  grid_height : ℕ
  grid_width : ℕ
  grid : List (List Bool)
deriving DecidableEq, Repr

/-- Embeds `GridMap.__init__`: the grid extents use 111111 m per degree latitude
and 111111 m times `cosO` of the mean latitude per degree longitude,
divided by the resolution and truncated by Python `int()`, each clamped
to a minimum of 10; the grid starts all-passable. -/
def GridMap.build (cosO : ℚ → ℚ) (bounds : ℚ × ℚ × ℚ × ℚ) (resolution : ℚ) : GridMap :=
  let (min_lat, max_lat, min_lon, max_lon) := bounds
  let lat_range := max_lat - min_lat
  let lon_range := max_lon - min_lon
  let avg_lat := (min_lat + max_lat) / 2
  let cos_lat := cosO avg_lat
  let lat_meters := lat_range * 111111
  let lon_meters := lon_range * 111111 * cos_lat
  let grid_height := (max 10 (pyInt (lat_meters / resolution))).toNat
  let grid_width := (max 10 (pyInt (lon_meters / resolution))).toNat
  { min_lat := min_lat, max_lat := max_lat, min_lon := min_lon, max_lon := max_lon,
    resolution := resolution, grid_height := grid_height, grid_width := grid_width,
    grid := List.replicate grid_height (List.replicate grid_width false) }

/-- Embeds `GridMap.latlon_to_grid`: normalize into [0,1], scale by
`dimension - 1`, truncate, clamp into the valid range. -/
def GridMap.latlon_to_grid (gm : GridMap) (lat lon : ℚ) : ℤ × ℤ :=
  let norm_lat := (lat - gm.min_lat) / (gm.max_lat - gm.min_lat)
  let norm_lon := (lon - gm.min_lon) / (gm.max_lon - gm.min_lon)
  let grid_y := pyInt (norm_lat * ((gm.grid_height : ℚ) - 1))
  let grid_x := pyInt (norm_lon * ((gm.grid_width : ℚ) - 1))
  (max 0 (min ((gm.grid_height : ℤ) - 1) grid_y),
   max 0 (min ((gm.grid_width : ℤ) - 1) grid_x))

/-- Embeds `GridMap.grid_to_latlon`. -/
def GridMap.grid_to_latlon (gm : GridMap) (grid_y grid_x : ℤ) : ℚ × ℚ :=
  let norm_lat := (grid_y : ℚ) / ((gm.grid_height : ℚ) - 1)
  let norm_lon := (grid_x : ℚ) / ((gm.grid_width : ℚ) - 1)
  (gm.min_lat + norm_lat * (gm.max_lat - gm.min_lat),
   gm.min_lon + norm_lon * (gm.max_lon - gm.min_lon))

/-- Embeds `GridMap.mark_obstacle`: every cell whose geographic center lies in
the polygon is marked occupied; other cells keep their previous value. -/
def GridMap.mark_obstacle (gm : GridMap) (polygon : List (ℚ × ℚ)) : GridMap :=
  { gm with grid := gm.grid.mapIdx (fun y row => row.mapIdx (fun x b =>
      if point_in_polygon (gm.grid_to_latlon y x) polygon then true else b)) }

/-- Embeds `GridMap.mark_boundary`: with `invert` (the only mode the planner
uses) every cell is overwritten with "outside the boundary polygon". -/
def GridMap.mark_boundary (gm : GridMap) (boundary : List (ℚ × ℚ)) (invert : Bool) : GridMap :=
  { gm with grid := gm.grid.mapIdx (fun y row => row.mapIdx (fun x b =>
      let is_inside := point_in_polygon (gm.grid_to_latlon y x) boundary
      if invert then !is_inside else b)) }

/-- Embeds `GridMap.is_valid`: in-bounds and not occupied. -/
def GridMap.is_valid (gm : GridMap) (grid_y grid_x : ℤ) : Bool :=
  if grid_y < 0 ∨ (gm.grid_height : ℤ) ≤ grid_y then false
  else if grid_x < 0 ∨ (gm.grid_width : ℤ) ≤ grid_x then false
  else !((gm.grid.getD grid_y.toNat []).getD grid_x.toNat true)

/-- State of an `Obstacle` object (display-only fields omitted). -/
structure Obstacle where
  corners : List (ℚ × ℚ)
  safe_distance : ℚ
  is_complete : Bool
deriving DecidableEq, Repr

/-- Embeds `Obstacle._vector_subtract`. -/
def vector_subtract (p1 p2 : ℚ × ℚ) : ℚ × ℚ := (p1.1 - p2.1, p1.2 - p2.2)

/-- Embeds `Obstacle._normalize_vector`; `sqrtO` is the `math.sqrt` oracle. -/
def normalize_vector (sqrtO : ℚ → ℚ) (v : ℚ × ℚ) : ℚ × ℚ :=
  let length := sqrtO (v.1 ^ 2 + v.2 ^ 2)
  if length < 1 / 10 ^ 10 then (0, 0) else (v.1 / length, v.2 / length)

/-- Embeds `Obstacle._offset_point`; `cosO` is the `math.cos ∘ math.radians` oracle. -/
def offset_point (cosO : ℚ → ℚ) (point direction : ℚ × ℚ) (distance_m : ℚ) : ℚ × ℚ :=
  let (lat, lon) := point
  let (dir_lat, dir_lon) := direction
  let cos_lat := cosO lat
  (lat + dir_lat * distance_m / 111111,
   lon + dir_lon * distance_m / (111111 * cos_lat))

/-- Embeds `Obstacle.get_expanded_corners`: offset every vertex outward along the
rotated bisector of its two incident edges. -/
def Obstacle.get_expanded_corners (sqrtO cosO : ℚ → ℚ) (o : Obstacle)
    (distance_m : ℚ) : List (ℚ × ℚ) :=
  if o.corners.length < 3 then o.corners
  else
    let n := o.corners.length
    (List.range n).map (fun i =>
      let curr := o.corners.getD i (0, 0)
      let prev := o.corners.getD ((i + n - 1) % n) (0, 0)
      let nxt := o.corners.getD ((i + 1) % n) (0, 0)
      let v1 := normalize_vector sqrtO (vector_subtract curr prev)
      let v2 := normalize_vector sqrtO (vector_subtract nxt curr)
      let bisector := normalize_vector sqrtO (v1.1 + v2.1, v1.2 + v2.2)
      let normal := (-bisector.2, bisector.1)
      offset_point cosO curr normal distance_m)

/-- Mutable state of an `ObstacleManager` object (the `pathfinder` field
of the source is a stateless wrapper around `grid_map` and is not stored
separately). -/
structure ObstacleManagerState where
  obstacles : List Obstacle
  current_creating_obstacle : Option Obstacle
  grid_map : Option GridMap
deriving DecidableEq, Repr

/-- Embeds `ObstacleManager.__init__`. -/
def ObstacleManagerState.init : ObstacleManagerState :=
  { obstacles := [], current_creating_obstacle := none, grid_map := none }

/-- Embeds `ObstacleManager.start_new_obstacle`. -/
def start_new_obstacle (st : ObstacleManagerState) (safe_distance : ℚ) :
    ObstacleManagerState :=
  let o : Obstacle := { corners := [], safe_distance := safe_distance, is_complete := false }
  { st with current_creating_obstacle := some o }

/-- Embeds `Obstacle.add_corner` applied to the current draft obstacle. -/
def add_corner (st : ObstacleManagerState) (lat lon : ℚ) : ObstacleManagerState :=
  match st.current_creating_obstacle with
  | some o =>
    let o' : Obstacle := { o with corners := o.corners ++ [(lat, lon)] }
    { st with current_creating_obstacle := some o' }
  | none => st

/-- Embeds `ObstacleManager.finish_current_obstacle`: returns the Python return
value together with the successor state. -/
def finish_current_obstacle (st : ObstacleManagerState) :
    Bool × ObstacleManagerState :=
  match st.current_creating_obstacle with
  | some o =>
    if 3 ≤ o.corners.length then
      (true, { st with
        obstacles := st.obstacles ++ [{ o with is_complete := true }],
        current_creating_obstacle := none })
    else (false, st)
  | none => (false, st)

/-- A* search-tree node (`Node` of the source): `root` is a node whose
`parent` is Python `None`.  `g`, `h`, `f` are the cost fields. -/
inductive SNode where
  | root (position : ℤ × ℤ) (g h f : ℚ)
  | child (position : ℤ × ℤ) (parent : SNode) (g h f : ℚ)
deriving DecidableEq, Repr

def SNode.position : SNode → ℤ × ℤ
  | .root p _ _ _ => p
  | .child p _ _ _ _ => p

def SNode.g : SNode → ℚ
  | .root _ g _ _ => g
  | .child _ _ g _ _ => g

def SNode.f : SNode → ℚ
  | .root _ _ _ f => f
  | .child _ _ _ _ f => f

/-- Embeds `Node._reconstruct_path` combined with the parent-chain walk: the
positions from the root of the search tree to this node, in order. -/
def SNode.path_positions : SNode → List (ℤ × ℤ)
  | .root p _ _ _ => [p]
  | .child p par _ _ _ => par.path_positions ++ [p]

/-- Models `heapq.heappop` on the open list: removes a node with minimal
`f` (`Node.__lt__` compares only `f`; Python's heap order among equal
`f` values is unspecified, here the first minimal node is taken). -/
def pop_min : List SNode → Option (SNode × List SNode)
  | [] => none
  | n :: ns =>
    match pop_min ns with
    | none => some (n, [])
    | some (m, rest) => if m.f < n.f then some (m, n :: rest) else some (n, ns)

/-- Lookup in the `g_scores` dictionary (most recent insertion wins). -/
def gs_find (gs : List ((ℤ × ℤ) × ℚ)) (c : ℤ × ℤ) : Option ℚ :=
  (gs.find? (fun e => decide (e.1 = c))).map Prod.snd

/-- Embeds `AStarPathfinder._distance`: Euclidean distance between cells. -/
def astar_distance (sqrtO : ℚ → ℚ) (pos1 pos2 : ℤ × ℤ) : ℚ :=
  let dy := pos2.1 - pos1.1
  let dx := pos2.2 - pos1.2
  sqrtO ((dx : ℚ) * dx + (dy : ℚ) * dy)

/-- Embeds `AStarPathfinder._heuristic` (same body as `_distance`). -/
def astar_heuristic (sqrtO : ℚ → ℚ) (pos1 pos2 : ℤ × ℤ) : ℚ :=
  let dy := pos2.1 - pos1.1
  let dx := pos2.2 - pos1.2
  sqrtO ((dx : ℚ) * dx + (dy : ℚ) * dy)

/-- Embeds `AStarPathfinder._get_neighbors`, at the level of the generated
positions: four orthogonal directions always, the four diagonals only
with `allow_diagonal`, and a diagonal only if both adjacent orthogonal
cells are passable. -/
def neighbor_positions (gm : GridMap) (allow_diagonal : Bool) (pos : ℤ × ℤ) :
    List (ℤ × ℤ) :=
  let (y, x) := pos
  let dirs : List (ℤ × ℤ) := [(0, 1), (1, 0), (0, -1), (-1, 0)] ++
    (if allow_diagonal then [(1, 1), (1, -1), (-1, 1), (-1, -1)] else [])
  dirs.filterMap (fun d =>
    let (dy, dx) := d
    let ny := y + dy
    let nx := x + dx
    if gm.is_valid ny nx then
      if allow_diagonal ∧ dy.natAbs = 1 ∧ dx.natAbs = 1 then
        if gm.is_valid (y + dy) x ∧ gm.is_valid y (x + dx) then some (ny, nx) else none
      else some (ny, nx)
    else none)

/-- Relaxation of a single neighbor inside the A* main loop: skip if the
position is closed, otherwise push a new node (with parent `current`)
whenever the tentative `g` improves on the recorded score. -/
def astar_expand (sqrtO : ℚ → ℚ) (end_pos : ℤ × ℤ) (current : SNode)
    (closed : List (ℤ × ℤ)) (st : List SNode × List ((ℤ × ℤ) × ℚ))
    (npos : ℤ × ℤ) : List SNode × List ((ℤ × ℤ) × ℚ) :=
  if npos ∈ closed then st
  else
    let tentative_g := current.g + astar_distance sqrtO current.position npos
    let better := match gs_find st.2 npos with
      | none => true
      | some g0 => decide (tentative_g < g0)
    if better then
      let h := astar_heuristic sqrtO npos end_pos
      (SNode.child npos current tentative_g h (tentative_g + h) :: st.1,
       (npos, tentative_g) :: st.2)
    else st

/-- The A* main loop of `AStarPathfinder.find_path`, with explicit fuel
(the Python loop is unbounded but terminating; every theorem below is
quantified over the fuel). -/
def astar_loop (gm : GridMap) (sqrtO : ℚ → ℚ) (allow_diagonal : Bool)
    (end_pos : ℤ × ℤ) :
    ℕ → List SNode → List (ℤ × ℤ) → List ((ℤ × ℤ) × ℚ) → Option (List (ℤ × ℤ))
  | 0, _, _, _ => none
  | fuel + 1, open_list, closed, g_scores =>
    match pop_min open_list with
    | none => none
    | some (current, rest) =>
      if current.position = end_pos then some current.path_positions
      else
        let closed' := current.position :: closed
        let nbrs := neighbor_positions gm allow_diagonal current.position
        let st' := nbrs.foldl (astar_expand sqrtO end_pos current closed') (rest, g_scores)
        astar_loop gm sqrtO allow_diagonal end_pos fuel st'.1 closed' st'.2

/-- The closed integer interval `[a, b]` as a list (Python `range(a, b+1)`). -/
def int_range_closed (a b : ℤ) : List ℤ :=
  (List.range (b + 1 - a).toNat).map (fun i : ℕ => a + (i : ℤ))

/-- The offsets scanned for one ring of
`AStarPathfinder._find_nearest_valid_point`: `dy, dx ∈ [-r, r]` with
`|dy| = r` or `|dx| = r`, in the source's scan order. -/
def ring_offsets (r : ℕ) : List (ℤ × ℤ) :=
  (int_range_closed (-(r : ℤ)) r).flatMap (fun dy =>
    (int_range_closed (-(r : ℤ)) r).filterMap (fun dx =>
      if dy.natAbs = r ∨ dx.natAbs = r then some (dy, dx) else none))

/-- First passable cell on the ring of radius `r` around `pos`. -/
def ring_find (gm : GridMap) (pos : ℤ × ℤ) (r : ℕ) : Option (ℤ × ℤ) :=
  ((ring_offsets r).map (fun d => (pos.1 + d.1, pos.2 + d.2))).find?
    (fun c => gm.is_valid c.1 c.2)

/-- Scan `k` consecutive rings starting at radius `r`. -/
def search_rings (gm : GridMap) (pos : ℤ × ℤ) : ℕ → ℕ → Option (ℤ × ℤ)
  | _, 0 => none
  | r, k + 1 =>
    match ring_find gm pos r with
    | some c => some c
    | none => search_rings gm pos (r + 1) k

/-- Embeds `AStarPathfinder._find_nearest_valid_point`: Python's
`for radius in range(1, max_search_radius)` scans the radii
`1 .. max_search_radius - 1` (not `max_search_radius` itself). -/
def find_nearest_valid_point (gm : GridMap) (pos : ℤ × ℤ)
    (max_search_radius : ℕ) : Option (ℤ × ℤ) :=
  search_rings gm pos 1 (max_search_radius - 1)

/-- Endpoint handling at the top of `AStarPathfinder.find_path`: the cell
of the given coordinate, replaced by the nearest passable cell when it is
not passable itself; `none` when that recovery also fails. -/
def snap_cell (gm : GridMap) (p : ℚ × ℚ) : Option (ℤ × ℤ) :=
  let c := gm.latlon_to_grid p.1 p.2
  if gm.is_valid c.1 c.2 then some c else find_nearest_valid_point gm c 20

/-- Loop body of `AStarPathfinder._bresenham_line`; the fuel passed by
`bresenham_line` strictly exceeds the number of iterations the Python
loop performs. -/
def bresenham_go (x1 y1 sx sy dx dy : ℤ) :
    ℕ → ℤ → ℤ → ℤ → List (ℤ × ℤ) → List (ℤ × ℤ)
  | 0, _, _, _, acc => acc.reverse
  | fuel + 1, x, y, err, acc =>
    let acc' := (y, x) :: acc
    if x = x1 ∧ y = y1 then acc'.reverse
    else
      let e2 := 2 * err
      let p1 := if e2 > -dy then (err - dy, x + sx) else (err, x)
      let p2 := if e2 < dx then (p1.1 + dx, y + sy) else (p1.1, y)
      bresenham_go x1 y1 sx sy dx dy fuel p1.2 p2.2 p2.1 acc'

/-- Embeds `AStarPathfinder._bresenham_line`: all cells the straight segment
between the two cells passes through. -/
def bresenham_line (s e : ℤ × ℤ) : List (ℤ × ℤ) :=
  let (y0, x0) := s
  let (y1, x1) := e
  let dx : ℤ := (x1 - x0).natAbs
  let dy : ℤ := (y1 - y0).natAbs
  let sx : ℤ := if x0 < x1 then 1 else -1
  let sy : ℤ := if y0 < y1 then 1 else -1
  bresenham_go x1 y1 sx sy dx dy (dx.toNat + dy.toNat + 1) x0 y0 (dx - dy) []

/-- Embeds `AStarPathfinder._has_line_of_sight`. -/
def has_line_of_sight (gm : GridMap) (s e : ℚ × ℚ) : Bool :=
  let sg := gm.latlon_to_grid s.1 s.2
  let eg := gm.latlon_to_grid e.1 e.2
  (bresenham_line sg eg).all (fun c => gm.is_valid c.1 c.2)

/-- The inner backward scan of `AStarPathfinder._smooth_path`: the
farthest index after `current_idx` still visible from it, defaulting to
`current_idx + 1`. -/
def find_farthest_visible (gm : GridMap) (path : List (ℚ × ℚ)) (current_idx : ℕ) : ℕ :=
  (((List.range' (current_idx + 1) (path.length - 1 - current_idx)).reverse).find?
    (fun t => has_line_of_sight gm (path.getD current_idx (0, 0)) (path.getD t (0, 0)))).getD
    (current_idx + 1)

/-- The while loop of `AStarPathfinder._smooth_path`; `current_idx`
strictly increases every iteration, so fuel `path.length` is ample. -/
def smooth_loop (gm : GridMap) (path : List (ℚ × ℚ)) :
    ℕ → ℕ → List (ℚ × ℚ) → List (ℚ × ℚ)
  | 0, _, acc => acc
  | fuel + 1, current_idx, acc =>
    if current_idx < path.length - 1 then
      let fv := find_farthest_visible gm path current_idx
      if current_idx + 1 < fv then
        smooth_loop gm path fuel fv (acc ++ [path.getD fv (0, 0)])
      else
        smooth_loop gm path fuel (current_idx + 1) (acc ++ [path.getD (current_idx + 1) (0, 0)])
    else acc

/-- Embeds `AStarPathfinder._smooth_path` (visibility-greedy simplification). -/
def smooth_path (gm : GridMap) (path : List (ℚ × ℚ)) : List (ℚ × ℚ) :=
  if path.length ≤ 2 then path
  else smooth_loop gm path path.length 0 [path.headD (0, 0)]

/-- Embeds `AStarPathfinder.find_path`: snap both endpoints, run the A* loop,
convert the cell path to coordinates and smooth it. -/
def find_path (gm : GridMap) (sqrtO : ℚ → ℚ) (fuel : ℕ)
    (start_latlon end_latlon : ℚ × ℚ) (allow_diagonal : Bool) :
    Option (List (ℚ × ℚ)) :=
  match snap_cell gm start_latlon, snap_cell gm end_latlon with
  | some sg, some eg =>
    match astar_loop gm sqrtO allow_diagonal eg fuel [SNode.root sg 0 0 0] [] [(sg, 0)] with
    | some cells => some (smooth_path gm (cells.map (fun c => gm.grid_to_latlon c.1 c.2)))
    | none => none
  | _, _ => none

/-- Embeds `ObstacleManager._segment_collides_with_obstacles` (grid present):
rasterize the segment between the endpoint cells and look for a cell
that is not passable. -/
def segment_collides_with_obstacles (gm : GridMap) (p1 p2 : ℚ × ℚ) : Bool :=
  let sg := gm.latlon_to_grid p1.1 p1.2
  let eg := gm.latlon_to_grid p2.1 p2.2
  (bresenham_line sg eg).any (fun c => !(gm.is_valid c.1 c.2))

/-- Embeds `ObstacleManager._build_grid_map`: bounding box of waypoints,
optional boundary corners and completed obstacles' corners, widened by a
10% margin per axis; resolution 0.5 m; boundary marked (inverted) when it
has at least 3 corners; each completed obstacle with at least 3 corners
marked through its safety-expanded polygon.  When fewer than two points
are available the state is returned unchanged (the Python method returns
early and leaves `self.grid_map` as it was). -/
def build_grid_map (sqrtO cosO : ℚ → ℚ) (st : ObstacleManagerState)
    (waypoints : List (ℚ × ℚ)) (boundary_corners : Option (List (ℚ × ℚ))) :
    ObstacleManagerState :=
  let all_points := waypoints ++
    (match boundary_corners with
     | some bc => bc
     | none => []) ++
    (st.obstacles.filter (fun o => o.is_complete)).flatMap (fun o => o.corners)
  if all_points.length < 2 then st
  else
    let lats := all_points.map Prod.fst
    let lons := all_points.map Prod.snd
    let lat_margin := (pymax lats - pymin lats) * (1 / 10)
    let lon_margin := (pymax lons - pymin lons) * (1 / 10)
    let bounds := (pymin lats - lat_margin, pymax lats + lat_margin,
                   pymin lons - lon_margin, pymax lons + lon_margin)
    let gm0 := GridMap.build cosO bounds (1 / 2)
    let gm1 := match boundary_corners with
      | some bc => if 3 ≤ bc.length then gm0.mark_boundary bc true else gm0
      | none => gm0
    let gm2 := st.obstacles.foldl (fun g o =>
      if o.is_complete ∧ 3 ≤ o.corners.length then
        g.mark_obstacle (o.get_expanded_corners sqrtO cosO o.safe_distance)
      else g) gm1
    { st with grid_map := some gm2 }

/-- One iteration of the segment loop of
`ObstacleManager.filter_waypoints_with_detour`: splice in an A* detour of
more than 2 points, otherwise append the segment's end waypoint unless it
already occurs in the accumulated output. -/
def detour_step (gm : GridMap) (sqrtO : ℚ → ℚ) (fuel : ℕ)
    (acc : List (ℚ × ℚ)) (seg : (ℚ × ℚ) × (ℚ × ℚ)) : List (ℚ × ℚ) :=
  let (current, next_point) := seg
  if segment_collides_with_obstacles gm current next_point then
    match find_path gm sqrtO fuel current next_point true with
    | some detour_path =>
      if 2 < detour_path.length then acc ++ detour_path.drop 1
      else if next_point ∈ acc then acc else acc ++ [next_point]
    | none => if next_point ∈ acc then acc else acc ++ [next_point]
  else if next_point ∈ acc then acc else acc ++ [next_point]

/-- Embeds `ObstacleManager.filter_waypoints_with_detour` (returned list; the
grid map stored in the state is rebuilt by `build_grid_map` first). -/
def filter_waypoints_with_detour (sqrtO cosO : ℚ → ℚ) (fuel : ℕ)
    (st : ObstacleManagerState) (waypoints : List (ℚ × ℚ))
    (boundary_corners : Option (List (ℚ × ℚ))) : List (ℚ × ℚ) :=
  match waypoints with
  | [] => waypoints
  | w0 :: rest =>
    if st.obstacles = [] then waypoints
    else
      let st' := build_grid_map sqrtO cosO st waypoints boundary_corners
      match st'.grid_map with
      | none => waypoints
      | some gm => (waypoints.zip rest).foldl (detour_step gm sqrtO fuel) [w0]

/-- Chebyshev distance between two cells (ring radius of the nearest-valid
search). -/
def cheb (a b : ℤ × ℤ) : ℕ := max (b.1 - a.1).natAbs (b.2 - a.2).natAbs

/-- Concrete instantiation of the `math.cos ∘ math.radians` oracle for the
example runs below: every latitude they use lies within 2·10⁻⁴ degrees of
the equator, where `cos (radians x)` differs from 1 by less than 10⁻¹¹,
far below anything that could change a discrete outcome evaluated here. -/
def cos_one : ℚ → ℚ := fun _ => 1

/-- Fueled integer Newton iteration (kernel-reducible, unlike the
well-founded `Nat.sqrt`). -/
def isqrt_go (n : ℕ) : ℕ → ℕ → ℕ
  | 0, g => g
  | fuel + 1, g =>
    let g' := (g + n / g) / 2
    if g' < g then isqrt_go n fuel g' else g

/-- Floor integer square root via `isqrt_go` (fuel 128 covers all inputs
arising below). -/
def isqrt (n : ℕ) : ℕ := if n = 0 then 0 else isqrt_go n 128 n

/-- Concrete instantiation of the `math.sqrt` oracle for the example runs:
the floor square root at 10⁻⁶ precision. -/
def sqrt_approx (q : ℚ) : ℚ :=
  (isqrt ((q.num.toNat * q.den) * 10 ^ 12) : ℚ) / ((q.den : ℚ) * 10 ^ 6)

/-- Example run 1: a completed triangular obstacle north of the flight
segment (all coordinates near the equator). -/
def obsT : Obstacle :=
  { corners := [(5/100000, 0), (5/100000, 1/100000), (6/100000, 0)],
    safe_distance := 1, is_complete := true }

def stS1 : ObstacleManagerState :=
  { obstacles := [obsT], current_creating_obstacle := none, grid_map := none }

def wpA : ℚ × ℚ := (0, 0)

def wpB : ℚ × ℚ := (0, 2/100000)

/-- The grid the planner builds for example run 1 on the closed loop
`[wpA, wpB, wpA]` (the fallback value of `getD` is never used: the build
succeeds, as proved below). -/
def gmS1 : GridMap :=
  (build_grid_map sqrt_approx cos_one stS1 [wpA, wpB, wpA] none).grid_map.getD
    (GridMap.build cos_one (0, 1, 0, 1) 1)

/-- Example run 2: a triangular obstacle containing both waypoints, whose
shared grid cell is blocked while a passable cell sits right next to it. -/
def obsT2 : Obstacle :=
  { corners := [(0, 0), (3/100000, 0), (0, 3/100000)],
    safe_distance := 1, is_complete := true }

def stS2 : ObstacleManagerState :=
  { obstacles := [obsT2], current_creating_obstacle := none, grid_map := none }

def wpA2 : ℚ × ℚ := (1/100000, 1/100000)

def wpB2 : ℚ × ℚ := (3/250000, 1/100000)

def gmS2 : GridMap :=
  (build_grid_map sqrt_approx cos_one stS2 [wpA2, wpB2] none).grid_map.getD
    (GridMap.build cos_one (0, 1, 0, 1) 1)

/-- Example run 5: a wall between the two waypoints with a gap at the west
side of the grid, so the A* search returns a genuine multi-point detour. -/
def obsW5 : Obstacle :=
  { corners := [(2/100000, -15/1000000), (2/100000, 15/1000000),
                (25/1000000, 15/1000000), (25/1000000, -15/1000000)],
    safe_distance := 1, is_complete := true }

/-- A second small obstacle far east of the wall; its corners widen the
bounding box so that the grid has free columns beside the wall. -/
def obsE5 : Obstacle :=
  { corners := [(0, 5/100000), (0, 6/100000), (1/100000, 5/100000)],
    safe_distance := 1, is_complete := true }

def stS5 : ObstacleManagerState :=
  { obstacles := [obsW5, obsE5], current_creating_obstacle := none, grid_map := none }

def wpA5 : ℚ × ℚ := (0, 0)

def wpB5 : ℚ × ℚ := (4/100000, 0)

def gmS5 : GridMap :=
  (build_grid_map sqrt_approx cos_one stS5 [wpA5, wpB5] none).grid_map.getD
    (GridMap.build cos_one (0, 1, 0, 1) 1)

/-- The detour the A* search returns in example run 5 (verified below). -/
def pS5 : List (ℚ × ℚ) :=
  [(-1/250000, -1/400000), (13/750000, -9/400000), (1/30000, -9/400000),
   (29/750000, -1/400000)]

/-- C5 counterexample grid: every cell blocked except `(5, 30)`, which has
Chebyshev distance exactly 20 from the start cell `(5, 10)`. -/
def gmC5 : GridMap :=
  { min_lat := 0, max_lat := 1, min_lon := 0, max_lon := 1, resolution := 1/2,
    grid_height := 10, grid_width := 41,
    grid := (List.range 10).map (fun y =>
      (List.range 41).map (fun x => !(decide (y = 5 ∧ x = 30)))) }

/-- C8 witness state: a draft obstacle holding exactly 2 corners. -/
def stC8 : ObstacleManagerState :=
  add_corner (add_corner (start_new_obstacle ObstacleManagerState.init 1) 0 0) 0 1

/-- Search-tree invariant of the A* loop: every parent step of a node was
produced by `neighbor_positions` (i.e. by `_get_neighbors`). -/
def chain_node (gm : GridMap) (ad : Bool) : SNode → Prop
  | .root _ _ _ _ => True
  | .child p par _ _ _ => p ∈ neighbor_positions gm ad par.position ∧ chain_node gm ad par

/-- An all-passable 10×10 grid for small concrete A* runs. -/
def gmFree : GridMap :=
  { min_lat := 0, max_lat := 1, min_lon := 0, max_lon := 1, resolution := 1/2,
    grid_height := 10, grid_width := 10,
    grid := List.replicate 10 (List.replicate 10 false) }

/-- The cell path of the concrete A* run on `gmFree` from `(0,0)` to
`(2,2)` (two diagonal steps; verified by `c7_witness`). -/
def astar_free_cells : List (ℤ × ℤ) := [(0, 0), (1, 1), (2, 2)]

/-- Truncation toward zero of an integer-valued rational is the integer. -/
theorem pyInt_intCast (n : ℤ) : pyInt (n : ℚ) = n := by
  simp [pyInt, Rat.num_intCast, Rat.den_intCast, Int.tdiv_one]

/-- On nonnegative rationals Python truncation agrees with the floor. -/
theorem pyInt_eq_floor (q : ℚ) (h : 0 ≤ q) : pyInt q = ⌊q⌋ := by
  rw [pyInt, Rat.floor_def]
  exact Int.tdiv_eq_ediv (Rat.num_nonneg.mpr h) (Int.natCast_nonneg _)

/-- C8: calling finish on a draft obstacle with fewer than 3 corners (for
example exactly 2) is rejected: `finish_current_obstacle` returns `false`,
nothing is appended to the registry's obstacle list, and the draft stays
the current draft with its corner list unchanged (the whole state is
returned unmodified). -/
theorem c8_finish_rejects_short_draft (st : ObstacleManagerState) (o : Obstacle)
    (hcur : st.current_creating_obstacle = some o) (hlen : o.corners.length < 3) :
    finish_current_obstacle st = (false, st) := by
  simp only [finish_current_obstacle, hcur]
  rw [if_neg (by omega)]

/-- C8 witness: the concrete draft `stC8` holding exactly 2 corners. -/
theorem c8_witness : finish_current_obstacle stC8 = (false, stC8) :=
  c8_finish_rejects_short_draft stC8
    { corners := [(0, 0), (0, 1)], safe_distance := 1, is_complete := false }
    (by decide) (by decide)

/-- Converting a valid cell to coordinates and back yields the same cell
(exact rational arithmetic). -/
theorem latlon_roundtrip_cell (gm : GridMap) (h1 : gm.min_lat < gm.max_lat)
    (h2 : gm.min_lon < gm.max_lon) (hh : 2 ≤ gm.grid_height) (hw : 2 ≤ gm.grid_width)
    (y x : ℤ) (hy0 : 0 ≤ y) (hy1 : y ≤ (gm.grid_height : ℤ) - 1)
    (hx0 : 0 ≤ x) (hx1 : x ≤ (gm.grid_width : ℤ) - 1) :
    gm.latlon_to_grid (gm.grid_to_latlon y x).1 (gm.grid_to_latlon y x).2 = (y, x) := by
  have hlat : gm.max_lat - gm.min_lat ≠ 0 := sub_ne_zero.mpr h1.ne'
  have hlon : gm.max_lon - gm.min_lon ≠ 0 := sub_ne_zero.mpr h2.ne'
  have hhq : ((gm.grid_height : ℚ) - 1) ≠ 0 := by
    have h2q : (2 : ℚ) ≤ (gm.grid_height : ℚ) := by exact_mod_cast hh
    intro hc
    nlinarith
  have hwq : ((gm.grid_width : ℚ) - 1) ≠ 0 := by
    have h2q : (2 : ℚ) ≤ (gm.grid_width : ℚ) := by exact_mod_cast hw
    intro hc
    nlinarith
  unfold GridMap.latlon_to_grid GridMap.grid_to_latlon
  simp only
  have ey : (gm.min_lat + (y : ℚ) / ((gm.grid_height : ℚ) - 1) * (gm.max_lat - gm.min_lat)
      - gm.min_lat) / (gm.max_lat - gm.min_lat) * ((gm.grid_height : ℚ) - 1) = ((y : ℤ) : ℚ) := by
    field_simp
    ring
  have ex : (gm.min_lon + (x : ℚ) / ((gm.grid_width : ℚ) - 1) * (gm.max_lon - gm.min_lon)
      - gm.min_lon) / (gm.max_lon - gm.min_lon) * ((gm.grid_width : ℚ) - 1) = ((x : ℤ) : ℚ) := by
    field_simp
    ring
  rw [ey, ex, pyInt_intCast, pyInt_intCast]
  congr 1
  · omega
  · omega

/-- C3: for coordinates inside the grid bounds, cell → coordinate → cell
reproduces the first cell. -/
theorem c3_grid_roundtrip (gm : GridMap) (h1 : gm.min_lat < gm.max_lat)
    (h2 : gm.min_lon < gm.max_lon) (hh : 2 ≤ gm.grid_height) (hw : 2 ≤ gm.grid_width)
    (lat lon : ℚ) (hb1 : gm.min_lat ≤ lat) (hb2 : lat ≤ gm.max_lat)
    (hb3 : gm.min_lon ≤ lon) (hb4 : lon ≤ gm.max_lon) :
    (let c := gm.latlon_to_grid lat lon
     let p := gm.grid_to_latlon c.1 c.2
     gm.latlon_to_grid p.1 p.2) = gm.latlon_to_grid lat lon := by
  have hcell : ∀ lat' lon', 0 ≤ (gm.latlon_to_grid lat' lon').1 ∧
      (gm.latlon_to_grid lat' lon').1 ≤ (gm.grid_height : ℤ) - 1 ∧
      0 ≤ (gm.latlon_to_grid lat' lon').2 ∧
      (gm.latlon_to_grid lat' lon').2 ≤ (gm.grid_width : ℤ) - 1 := by
    intro lat' lon'
    unfold GridMap.latlon_to_grid
    simp only
    refine ⟨le_max_left 0 _, max_le (by omega) (min_le_left _ _),
            le_max_left 0 _, max_le (by omega) (min_le_left _ _)⟩
  obtain ⟨hy0, hy1, hx0, hx1⟩ := hcell lat lon
  simp only
  rw [show gm.latlon_to_grid lat lon =
        ((gm.latlon_to_grid lat lon).1, (gm.latlon_to_grid lat lon).2) from rfl]
  exact latlon_roundtrip_cell gm h1 h2 hh hw _ _ hy0 hy1 hx0 hx1

/-- C3 witness: the concrete grid `gmC5` at the in-bounds point
`(1/3, 2/5)`. -/
theorem c3_witness :
    (let c := gmC5.latlon_to_grid (1/3) (2/5)
     let p := gmC5.grid_to_latlon c.1 c.2
     gmC5.latlon_to_grid p.1 p.2) = gmC5.latlon_to_grid (1/3) (2/5) :=
  c3_grid_roundtrip gmC5 (by decide) (by decide) (by decide) (by decide) (1/3) (2/5)
    (by decide) (by decide) (by decide) (by decide)

/-- C4 (amended): grid extents are `max 10 ⌊span_m / resolution⌋` — the
code truncates with Python `int()` (floor, for these nonnegative values)
instead of the claimed ceiling; the meter spans use 111111 m per degree
latitude and 111111 m times the cosine oracle at the mean latitude per
degree longitude. -/
theorem c4_grid_extents_amended (cosO : ℚ → ℚ)
    (min_lat max_lat min_lon max_lon res : ℚ)
    (h1 : min_lat ≤ max_lat) (h2 : min_lon ≤ max_lon) (hres : 0 < res)
    (hcos : 0 ≤ cosO ((min_lat + max_lat) / 2)) :
    (GridMap.build cosO (min_lat, max_lat, min_lon, max_lon) res).grid_height =
      (max 10 ⌊(max_lat - min_lat) * 111111 / res⌋).toNat ∧
    (GridMap.build cosO (min_lat, max_lat, min_lon, max_lon) res).grid_width =
      (max 10 ⌊(max_lon - min_lon) * 111111 * cosO ((min_lat + max_lat) / 2) / res⌋).toNat := by
  unfold GridMap.build
  simp only
  constructor
  · rw [pyInt_eq_floor _ (div_nonneg
      (mul_nonneg (sub_nonneg.mpr h1) (by norm_num)) hres.le)]
  · rw [pyInt_eq_floor _ (div_nonneg
      (mul_nonneg (mul_nonneg (sub_nonneg.mpr h2) (by norm_num)) hcos) hres.le)]

/-- C4 witness: concrete bounds with a latitude span of 6 m and a
longitude span of 8 m at 0.5 m resolution. -/
theorem c4_amended_witness :
    (GridMap.build cos_one (0, 6/111111, 0, 8/111111) (1/2)).grid_height =
      (max 10 ⌊(6/111111 - 0 : ℚ) * 111111 / (1/2)⌋).toNat ∧
    (GridMap.build cos_one (0, 6/111111, 0, 8/111111) (1/2)).grid_width =
      (max 10 ⌊(8/111111 - 0 : ℚ) * 111111 * cos_one ((0 + 6/111111) / 2) / (1/2)⌋).toNat :=
  c4_grid_extents_amended cos_one 0 (6/111111) 0 (8/111111) (1/2)
    (by norm_num) (by norm_num) (by norm_num) (by norm_num [cos_one])

/-- C4 counterexample: with a latitude span of 25/444444 degrees
(6.25 m) at resolution 0.5 m, lat-meters/resolution is 12.5; the code's
grid height is `max 10 (int 12.5) = 12`, while the claim's ceiling
formula gives `max 10 ⌈12.5⌉ = 13`.  (The mean latitude is within
3·10⁻⁵ degrees of the equator, where the float cosine is 1 to ~10⁻¹⁹,
so the oracle `cos_one` is exact here; it only affects the width.) -/
theorem c4_counterexample :
    (GridMap.build cos_one (0, 25/444444, 0, 2/100000) (1/2)).grid_height = 12 ∧
    (max 10 ⌈((25/444444 : ℚ) - 0) * 111111 / (1/2)⌉).toNat = 13 ∧
    (12 : ℕ) ≠ 13 := by
  refine ⟨by decide, ?_, by decide⟩
  rw [show ((25/444444 : ℚ) - 0) * 111111 / (1/2) = 25/2 by norm_num]
  rw [show ⌈(25/2 : ℚ)⌉ = 13 from by
    rw [Int.ceil_eq_iff]
    norm_num]
  rfl

/-- One ray-casting edge step of the faithful run never fails and agrees
with the total step: inside the longitude window the two edge longitudes
necessarily differ, so `xinters` is always assigned right before use. -/
theorem pip_edge_run_eq (lat lon : ℚ) (b : Bool) (xo : Option ℚ) (p1 p2 : ℚ × ℚ) :
    ∃ xo', pip_edge_run lat lon (b, xo) p1 p2 = some (pip_edge lat lon b p1 p2, xo') := by
  unfold pip_edge_run pip_edge
  by_cases hw1 : lon > min p1.2 p2.2
  · by_cases hw2 : lon ≤ max p1.2 p2.2
    · by_cases hw3 : lat ≤ max p1.1 p2.1
      · have hne : p1.2 ≠ p2.2 := by
          intro he
          rw [he, min_self] at hw1
          rw [he, max_self] at hw2
          linarith
        rw [if_pos hw1, if_pos hw2, if_pos hw3, if_pos (⟨hw1, hw2, hw3⟩ : _ ∧ _ ∧ _),
            if_pos hne, if_neg hne]
        by_cases heq : p1.1 = p2.1
        · rw [if_pos heq, if_pos (Or.inl heq)]
          exact ⟨_, rfl⟩
        · rw [if_neg heq]
          by_cases hx : lat ≤ (lon - p1.2) * (p2.1 - p1.1) / (p2.2 - p1.2) + p1.1
          · rw [if_pos hx, if_pos (Or.inr hx)]
            exact ⟨_, rfl⟩
          · rw [if_neg hx, if_neg (by
              rintro (h | h)
              · exact heq h
              · exact hx h)]
            exact ⟨_, rfl⟩
      · rw [if_pos hw1, if_pos hw2, if_neg hw3,
            if_neg (by rintro ⟨-, -, h⟩; exact hw3 h)]
        exact ⟨xo, rfl⟩
    · rw [if_pos hw1, if_neg hw2, if_neg (by rintro ⟨-, h, -⟩; exact hw2 h)]
      exact ⟨xo, rfl⟩
  · rw [if_neg hw1, if_neg (by rintro ⟨h, -, -⟩; exact hw1 h)]
    exact ⟨xo, rfl⟩

/-- The faithful ray-casting fold never fails and computes the same flag
as the total fold. -/
theorem pip_fold_run (lat lon : ℚ) :
    ∀ (edges : List ((ℚ × ℚ) × (ℚ × ℚ))) (b : Bool) (xo : Option ℚ),
    ∃ xo', edges.foldlM (fun st e => pip_edge_run lat lon st e.1 e.2) (b, xo) =
      some (edges.foldl (fun ins e => pip_edge lat lon ins e.1 e.2) b, xo')
  | [], b, xo => ⟨xo, rfl⟩
  | e :: es, b, xo => by
    obtain ⟨xo1, h1⟩ := pip_edge_run_eq lat lon b xo e.1 e.2
    obtain ⟨xo', h2⟩ := pip_fold_run lat lon es (pip_edge lat lon b e.1 e.2) xo1
    refine ⟨xo', ?_⟩
    rw [List.foldlM_cons, h1]
    simpa using h2

/-- C6: the ray-casting point-in-polygon test is total on every nonempty
polygon: the faithful run (with the Python `xinters` variable modelled as
possibly-unassigned) never reads the variable while it is unassigned and
returns exactly the value of the total function `point_in_polygon`;
moreover an edge that is vertical in longitude (`p1_lon = p2_lon`) never
enters the longitude window, so under both semantics such an edge is
skipped with the inside flag (and the stored `xinters`) unchanged — in
particular no uninitialized read can happen even when such an edge comes
first. -/
theorem c6_ray_casting_total (point : ℚ × ℚ) (poly : List (ℚ × ℚ)) (hne : poly ≠ []) :
    point_in_polygon_run point poly = some (point_in_polygon point poly) ∧
    (∀ (b : Bool) (xo : Option ℚ) (p1 p2 : ℚ × ℚ), p1.2 = p2.2 →
      pip_edge_run point.1 point.2 (b, xo) p1 p2 = some (b, xo) ∧
      pip_edge point.1 point.2 b p1 p2 = b) := by
  constructor
  · match poly, hne with
    | p :: rest, _ =>
      unfold point_in_polygon_run point_in_polygon
      obtain ⟨xo', h⟩ := pip_fold_run point.1 point.2 (polygon_edges (p :: rest)) false none
      rw [h]
      rfl
  · intro b xo p1 p2 hv
    unfold pip_edge_run pip_edge
    rw [hv, min_self, max_self]
    constructor
    · by_cases h : point.2 > p2.2
      · rw [if_pos h, if_neg (not_le.mpr h)]
      · rw [if_neg h]
    · rw [if_neg (by rintro ⟨ha, hb, -⟩; linarith)]

/-- C6 witness: a concrete query against a triangle. -/
theorem c6_witness :
    point_in_polygon_run (0, 0) [(1, 1), (1, 2), (2, 1)] =
      some (point_in_polygon (0, 0) [(1, 1), (1, 2), (2, 1)]) :=
  (c6_ray_casting_total (0, 0) [(1, 1), (1, 2), (2, 1)] (by decide)).1

/-- A diagonal neighbor is generated only when both adjacent orthogonal
cells are passable. -/
theorem neighbor_positions_diagonal (gm : GridMap) (ad : Bool) (y x ny nx : ℤ)
    (hmem : (ny, nx) ∈ neighbor_positions gm ad (y, x))
    (hdy : (ny - y).natAbs = 1) (hdx : (nx - x).natAbs = 1) :
    gm.is_valid ny x = true ∧ gm.is_valid y nx = true := by
  unfold neighbor_positions at hmem
  simp only [List.mem_filterMap] at hmem
  obtain ⟨⟨dy, dx⟩, hd, heq⟩ := hmem
  simp only at heq
  split_ifs at heq with hv hdiag hboth
  · -- diagonal direction, both orthogonal cells passable
    simp only [Option.some.injEq, Prod.mk.injEq] at heq
    obtain ⟨rfl, rfl⟩ := heq
    exact hboth
  · -- direction not treated as diagonal: contradicts |dy| = |dx| = 1
    exfalso
    simp only [Option.some.injEq, Prod.mk.injEq] at heq
    obtain ⟨rfl, rfl⟩ := heq
    apply hdiag
    cases ad with
    | true => refine ⟨rfl, ?_, ?_⟩ <;> omega
    | false =>
      exfalso
      have hd' : (dy, dx) ∈ [((0 : ℤ), (1 : ℤ)), (1, 0), (0, -1), (-1, 0)] := by
        simpa using hd
      simp only [List.mem_cons, List.not_mem_nil, or_false, Prod.mk.injEq] at hd'
      rcases hd' with ⟨h1, h2⟩ | ⟨h1, h2⟩ | ⟨h1, h2⟩ | ⟨h1, h2⟩ <;> omega

/-- The last entry of a reconstructed path is the node's own position. -/
theorem path_positions_last (n : SNode) :
    n.path_positions.getLast? = some n.position := by
  induction n with
  | root p g h f => rfl
  | child p par g h f ih =>
    simp [SNode.path_positions, SNode.position, List.getLast?_append]

/-- A reconstructed path is never empty. -/
theorem path_positions_ne_nil (n : SNode) : n.path_positions ≠ [] := by
  cases n with
  | root p g h f => simp [SNode.path_positions]
  | child p par g h f => simp [SNode.path_positions]

/-- Along a chain-invariant node's reconstructed path, every consecutive
pair is a `neighbor_positions` step. -/
theorem chain_node_path (gm : GridMap) (ad : Bool) (n : SNode)
    (h : chain_node gm ad n) :
    List.Chain' (fun a b => b ∈ neighbor_positions gm ad a) n.path_positions := by
  induction n with
  | root p g h' f => simp [SNode.path_positions]
  | child p par g h' f ih =>
    obtain ⟨hstep, hpar⟩ := h
    have hlast := path_positions_last par
    rw [SNode.path_positions, List.chain'_append]
    refine ⟨ih hpar, List.chain'_singleton p, ?_⟩
    intro a ha b hb
    rw [hlast] at ha
    have ha' : par.position = a := by simpa using ha
    have hb' : p = b := by simpa using hb
    rw [← ha', ← hb']
    exact hstep

/-- Popping the minimum returns a member of the list. -/
theorem pop_min_mem (l : List SNode) : ∀ n rest, pop_min l = some (n, rest) → n ∈ l := by
  induction l with
  | nil => intro n rest h; simp [pop_min] at h
  | cons a l ih =>
    intro n rest h
    unfold pop_min at h
    split at h
    · simp only [Option.some.injEq, Prod.mk.injEq] at h
      obtain ⟨rfl, rfl⟩ := h
      exact List.mem_cons_self a l
    · rename_i m r hrec
      split_ifs at h with hf
      · simp only [Option.some.injEq, Prod.mk.injEq] at h
        obtain ⟨rfl, rfl⟩ := h
        exact List.mem_cons_of_mem a (ih m r hrec)
      · simp only [Option.some.injEq, Prod.mk.injEq] at h
        obtain ⟨rfl, rfl⟩ := h
        exact List.mem_cons_self a l

/-- Every node in the remainder returned by `pop_min` is in the list. -/
theorem pop_min_rest_mem (l : List SNode) :
    ∀ n rest, pop_min l = some (n, rest) → ∀ m ∈ rest, m ∈ l := by
  induction l with
  | nil => intro n rest h; simp [pop_min] at h
  | cons a l ih =>
    intro n rest h
    unfold pop_min at h
    split at h
    · simp only [Option.some.injEq, Prod.mk.injEq] at h
      obtain ⟨rfl, rfl⟩ := h
      intro m hm
      simp at hm
    · rename_i mn r hrec
      split_ifs at h with hf
      · simp only [Option.some.injEq, Prod.mk.injEq] at h
        obtain ⟨rfl, rfl⟩ := h
        intro m hm
        rcases List.mem_cons.mp hm with rfl | hm'
        · exact List.mem_cons_self _ _
        · exact List.mem_cons_of_mem _ (ih mn r hrec m hm')
      · simp only [Option.some.injEq, Prod.mk.injEq] at h
        obtain ⟨rfl, rfl⟩ := h
        intro m hm
        exact List.mem_cons_of_mem a hm

/-- Any node in the open list after one relaxation step was either there
before or is a freshly pushed child of `current`. -/
theorem astar_expand_mem (sq : ℚ → ℚ) (endp : ℤ × ℤ) (cur : SNode)
    (closed : List (ℤ × ℤ)) (st : List SNode × List ((ℤ × ℤ) × ℚ)) (npos : ℤ × ℤ) :
    ∀ nd ∈ (astar_expand sq endp cur closed st npos).1,
      nd ∈ st.1 ∨ ∃ g h f, nd = SNode.child npos cur g h f := by
  intro nd hnd
  simp only [astar_expand] at hnd
  split_ifs at hnd with hclosed hbetter
  · exact Or.inl hnd
  · rcases List.mem_cons.mp hnd with rfl | hnd'
    · exact Or.inr ⟨_, _, _, rfl⟩
    · exact Or.inl hnd'
  · exact Or.inl hnd

/-- Folding the relaxation over generated neighbor positions preserves
the chain invariant of the open list. -/
theorem astar_expand_fold_chain (gm : GridMap) (ad : Bool) (sq : ℚ → ℚ)
    (endp : ℤ × ℤ) (cur : SNode) (closed : List (ℤ × ℤ))
    (hcur : chain_node gm ad cur) :
    ∀ (nps : List (ℤ × ℤ)) (st : List SNode × List ((ℤ × ℤ) × ℚ)),
      (∀ q ∈ nps, q ∈ neighbor_positions gm ad cur.position) →
      (∀ nd ∈ st.1, chain_node gm ad nd) →
      ∀ nd ∈ (nps.foldl (astar_expand sq endp cur closed) st).1, chain_node gm ad nd
  | [], st, hq, hst => hst
  | q :: nps, st, hq, hst => by
    rw [List.foldl_cons]
    refine astar_expand_fold_chain gm ad sq endp cur closed hcur nps _
      (fun q' hq' => hq q' (List.mem_cons_of_mem q hq')) ?_
    intro nd hnd
    rcases astar_expand_mem sq endp cur closed st q nd hnd with hold | ⟨g, h, f, rfl⟩
    · exact hst nd hold
    · exact ⟨hq q (List.mem_cons_self q nps), hcur⟩

/-- Unfolding of one A* iteration when the open list is exhausted. -/
theorem astar_loop_succ_none (gm : GridMap) (sq : ℚ → ℚ) (ad : Bool) (endp : ℤ × ℤ)
    (fuel : ℕ) (ol : List SNode) (closed : List (ℤ × ℤ)) (gs : List ((ℤ × ℤ) × ℚ))
    (hpop : pop_min ol = none) :
    astar_loop gm sq ad endp (fuel + 1) ol closed gs = none := by
  simp [astar_loop, hpop]

/-- Unfolding of one A* iteration when a node is popped. -/
theorem astar_loop_succ_some (gm : GridMap) (sq : ℚ → ℚ) (ad : Bool) (endp : ℤ × ℤ)
    (fuel : ℕ) (ol : List SNode) (closed : List (ℤ × ℤ)) (gs : List ((ℤ × ℤ) × ℚ))
    (cur : SNode) (rest : List SNode) (hpop : pop_min ol = some (cur, rest)) :
    astar_loop gm sq ad endp (fuel + 1) ol closed gs =
      if cur.position = endp then some cur.path_positions
      else
        astar_loop gm sq ad endp fuel
          ((neighbor_positions gm ad cur.position).foldl
            (astar_expand sq endp cur (cur.position :: closed)) (rest, gs)).1
          (cur.position :: closed)
          ((neighbor_positions gm ad cur.position).foldl
            (astar_expand sq endp cur (cur.position :: closed)) (rest, gs)).2 := by
  cases rest with
  | nil => simp [astar_loop, hpop]
  | cons a as => simp [astar_loop, hpop]

/-- If the A* main loop succeeds, the returned cell list is the
reconstructed path of a chain-invariant node sitting on the goal cell. -/
theorem astar_loop_some_chain (gm : GridMap) (sq : ℚ → ℚ) (ad : Bool) (endp : ℤ × ℤ) :
    ∀ (fuel : ℕ) (ol : List SNode) (closed : List (ℤ × ℤ))
      (gs : List ((ℤ × ℤ) × ℚ)) (cells : List (ℤ × ℤ)),
      astar_loop gm sq ad endp fuel ol closed gs = some cells →
      (∀ nd ∈ ol, chain_node gm ad nd) →
      ∃ n, chain_node gm ad n ∧ n.position = endp ∧ cells = n.path_positions
  | 0, ol, closed, gs, cells, h, hol => by simp [astar_loop] at h
  | fuel + 1, ol, closed, gs, cells, h, hol => by
    cases hpop : pop_min ol with
    | none => rw [astar_loop_succ_none gm sq ad endp fuel ol closed gs hpop] at h; exact absurd h (by simp)
    | some pr =>
      obtain ⟨cur, rest⟩ := pr
      rw [astar_loop_succ_some gm sq ad endp fuel ol closed gs cur rest hpop] at h
      split_ifs at h with hgoal
      · refine ⟨cur, hol cur (pop_min_mem ol cur rest hpop), hgoal, ?_⟩
        exact (Option.some.inj h).symm
      · refine astar_loop_some_chain gm sq ad endp fuel _ _ _ cells h ?_
        refine astar_expand_fold_chain gm ad sq endp cur
          (cur.position :: closed) (hol cur (pop_min_mem ol cur rest hpop))
          (neighbor_positions gm ad cur.position) (rest, gs) (fun q hq => hq) ?_
        intro nd hnd
        exact hol nd (pop_min_rest_mem ol cur rest hpop nd hnd)

/-- C7: with diagonal movement allowed, a diagonal neighbor
(`|dy| = |dx| = 1`) is generated — and hence pushed onto the open set —
only if both of its adjacent orthogonal cells are passable; consequently
a cell path returned by the A* main loop never takes a diagonal step past
an impassable orthogonal neighbor. -/
theorem c7_diagonal_corner_rule (gm : GridMap) (ad : Bool) (sq : ℚ → ℚ) :
    (∀ y x ny nx, (ny, nx) ∈ neighbor_positions gm ad (y, x) →
      (ny - y).natAbs = 1 → (nx - x).natAbs = 1 →
      gm.is_valid ny x = true ∧ gm.is_valid y nx = true) ∧
    (∀ (endp : ℤ × ℤ) (fuel : ℕ) (sg : ℤ × ℤ) (g0 h0 f0 : ℚ)
      (gs : List ((ℤ × ℤ) × ℚ)) (cells : List (ℤ × ℤ)) (i : ℕ) (y x ny nx : ℤ),
      astar_loop gm sq ad endp fuel [SNode.root sg g0 h0 f0] [] gs = some cells →
      cells.get? i = some (y, x) → cells.get? (i + 1) = some (ny, nx) →
      (ny - y).natAbs = 1 → (nx - x).natAbs = 1 →
      gm.is_valid ny x = true ∧ gm.is_valid y nx = true) := by
  constructor
  · exact fun y x ny nx => neighbor_positions_diagonal gm ad y x ny nx
  · intro endp fuel sg g0 h0 f0 gs cells i y x ny nx hrun h1 h2 hdy hdx
    obtain ⟨n, hchain, -, rfl⟩ := astar_loop_some_chain gm sq ad endp fuel _ [] gs cells hrun
      (by
        intro nd hnd
        have : nd = SNode.root sg g0 h0 f0 := by simpa using hnd
        rw [this]
        trivial)
    have hch := chain_node_path gm ad n hchain
    obtain ⟨hi, hgi⟩ := List.get?_eq_some.mp h1
    obtain ⟨hi2, hgi2⟩ := List.get?_eq_some.mp h2
    have hR := List.chain'_iff_get.mp hch i (by omega)
    rw [hgi, hgi2] at hR
    exact neighbor_positions_diagonal gm ad y x ny nx hR hdy hdx

/-- C7 witness: a generated diagonal neighbor on the grid of example
run 1, and the concrete two-diagonal-step A* run on the free grid. -/
theorem c7_witness :
    (gmS1.is_valid 2 1 = true ∧ gmS1.is_valid 1 2 = true) ∧
    (gmFree.is_valid 1 0 = true ∧ gmFree.is_valid 0 1 = true) :=
  ⟨(c7_diagonal_corner_rule gmS1 true sqrt_approx).1 1 1 2 2
      (by decide) (by decide) (by decide),
   (c7_diagonal_corner_rule gmFree true sqrt_approx).2 (2, 2) 100 (0, 0) 0 0 0
      [((0, 0), 0)] astar_free_cells 0 0 0 1 1
      (by decide) (by decide) (by decide) (by decide) (by decide)⟩

/-- Membership in the closed integer interval list. -/
theorem mem_int_range_closed (a b v : ℤ) : v ∈ int_range_closed a b ↔ a ≤ v ∧ v ≤ b := by
  unfold int_range_closed
  simp only [List.mem_map, List.mem_range]
  constructor
  · rintro ⟨i, hi, rfl⟩
    omega
  · rintro ⟨h1, h2⟩
    exact ⟨(v - a).toNat, by omega, by omega⟩

/-- The scanned ring of radius `r` is exactly the set of offsets at
Chebyshev distance `r`. -/
theorem mem_ring_offsets (r : ℕ) (dy dx : ℤ) :
    (dy, dx) ∈ ring_offsets r ↔ max dy.natAbs dx.natAbs = r := by
  unfold ring_offsets
  simp only [List.mem_flatMap, List.mem_filterMap, mem_int_range_closed]
  constructor
  · rintro ⟨dy', hdy', dx', hdx', heq⟩
    split_ifs at heq with hcond
    · simp only [Option.some.injEq, Prod.mk.injEq] at heq
      obtain ⟨rfl, rfl⟩ := heq
      omega
  · intro h
    refine ⟨dy, ⟨by omega, by omega⟩, dx, ⟨by omega, by omega⟩, ?_⟩
    rw [if_pos (by omega)]

/-- A successful single-ring search returns a passable cell at Chebyshev
distance exactly `r`. -/
theorem ring_find_some (gm : GridMap) (pos : ℤ × ℤ) (r : ℕ) (c : ℤ × ℤ)
    (h : ring_find gm pos r = some c) :
    gm.is_valid c.1 c.2 = true ∧ cheb pos c = r := by
  unfold ring_find at h
  have hvalid := List.find?_some h
  have hmem := List.mem_of_find?_eq_some h
  simp only [List.mem_map] at hmem
  obtain ⟨⟨dy, dx⟩, hd, heq⟩ := hmem
  rw [mem_ring_offsets] at hd
  refine ⟨hvalid, ?_⟩
  obtain ⟨hc1, hc2⟩ := Prod.ext_iff.mp heq
  simp only at hc1 hc2
  unfold cheb
  rw [← hc1, ← hc2]
  simpa using hd

/-- An exhausted single-ring search means no cell at Chebyshev distance
`r` is passable. -/
theorem ring_find_none (gm : GridMap) (pos : ℤ × ℤ) (r : ℕ)
    (h : ring_find gm pos r = none) :
    ∀ c : ℤ × ℤ, cheb pos c = r → gm.is_valid c.1 c.2 = false := by
  intro c hc
  unfold ring_find at h
  rw [List.find?_eq_none] at h
  have hmem : c ∈ (ring_offsets r).map (fun d => (pos.1 + d.1, pos.2 + d.2)) := by
    simp only [List.mem_map]
    refine ⟨(c.1 - pos.1, c.2 - pos.2), ?_, ?_⟩
    · rw [mem_ring_offsets]
      unfold cheb at hc
      omega
    · simp only
      rw [Prod.ext_iff]
      constructor <;> simp
  have := h c hmem
  simpa using this

/-- An exhausted multi-ring scan finds nothing in the scanned radius
band. -/
theorem search_rings_none (gm : GridMap) (pos : ℤ × ℤ) :
    ∀ (k r : ℕ), search_rings gm pos r k = none →
      ∀ c : ℤ × ℤ, r ≤ cheb pos c → cheb pos c < r + k → gm.is_valid c.1 c.2 = false
  | 0, r, h, c, h1, h2 => by omega
  | k + 1, r, h, c, h1, h2 => by
    cases hr : ring_find gm pos r with
    | some c' =>
      rw [search_rings, hr] at h
      exact absurd h (by simp)
    | none =>
      rw [search_rings, hr] at h
      by_cases hc : cheb pos c = r
      · exact ring_find_none gm pos r hr c hc
      · exact search_rings_none gm pos k (r + 1) h c (by omega) (by omega)

/-- A successful multi-ring scan returns a passable cell whose ring
radius is minimal within the scanned band. -/
theorem search_rings_some (gm : GridMap) (pos : ℤ × ℤ) :
    ∀ (k r : ℕ) (c : ℤ × ℤ), search_rings gm pos r k = some c →
      gm.is_valid c.1 c.2 = true ∧ r ≤ cheb pos c ∧ cheb pos c < r + k ∧
      ∀ c' : ℤ × ℤ, r ≤ cheb pos c' → cheb pos c' < cheb pos c →
        gm.is_valid c'.1 c'.2 = false
  | 0, r, c, h => by simp [search_rings] at h
  | k + 1, r, c, h => by
    cases hr : ring_find gm pos r with
    | some c' =>
      rw [search_rings, hr] at h
      have hcc : c' = c := Option.some.inj h
      subst hcc
      obtain ⟨hv, hcheb⟩ := ring_find_some gm pos r c' hr
      refine ⟨hv, by omega, by omega, ?_⟩
      intro c'' hc1 hc2
      exact absurd hc2 (by omega)
    | none =>
      rw [search_rings, hr] at h
      obtain ⟨hv, h1, h2, hmin⟩ := search_rings_some gm pos k (r + 1) c h
      refine ⟨hv, by omega, by omega, ?_⟩
      intro c'' hc1 hc2
      by_cases hceq : cheb pos c'' = r
      · exact ring_find_none gm pos r hr c'' hceq
      · exact hmin c'' (by omega) hc2

/-- C5 (amended): the replacement search of
`_find_nearest_valid_point` examines concentric square rings of radius
1 through 19 — Python's `range(1, 20)` stops short of the stated
radius 20 — returning a passable cell of minimal ring radius in that
band; when no passable cell exists at radius 1..19 it returns none, and
`find_path` then returns none for an impassable endpoint. -/
theorem c5_nearest_valid_amended (gm : GridMap) (pos : ℤ × ℤ) :
    (∀ c, find_nearest_valid_point gm pos 20 = some c →
      gm.is_valid c.1 c.2 = true ∧ 1 ≤ cheb pos c ∧ cheb pos c ≤ 19 ∧
      ∀ c', 1 ≤ cheb pos c' → cheb pos c' < cheb pos c →
        gm.is_valid c'.1 c'.2 = false) ∧
    (find_nearest_valid_point gm pos 20 = none →
      ∀ c', 1 ≤ cheb pos c' → cheb pos c' ≤ 19 → gm.is_valid c'.1 c'.2 = false) ∧
    (∀ (sq : ℚ → ℚ) (fuel : ℕ) (s e : ℚ × ℚ) (ad : Bool),
      gm.is_valid (gm.latlon_to_grid s.1 s.2).1 (gm.latlon_to_grid s.1 s.2).2 = false →
      find_nearest_valid_point gm (gm.latlon_to_grid s.1 s.2) 20 = none →
      find_path gm sq fuel s e ad = none) := by
  refine ⟨?_, ?_, ?_⟩
  · intro c h
    obtain ⟨hv, h1, h2, hmin⟩ := search_rings_some gm pos 19 1 c h
    exact ⟨hv, h1, by omega, fun c' hc1 hc2 => hmin c' hc1 hc2⟩
  · intro h c' h1 h2
    exact search_rings_none gm pos 19 1 h c' h1 (by omega)
  · intro sq fuel s e ad hv hn
    have hsnap : snap_cell gm s = none := by
      unfold snap_cell
      rw [if_neg (by rw [hv]; simp)]
      exact hn
    unfold find_path
    rw [hsnap]

set_option maxRecDepth 8000 in
set_option maxHeartbeats 2000000 in
/-- C5 counterexample: on `gmC5` the only passable cell `(5, 30)` sits at
Chebyshev distance exactly 20 from the blocked start cell `(5, 10)`
(within the claimed search radius 20), yet the nearest-valid search
returns none and `find_path` gives up. -/
theorem c5_counterexample :
    gmC5.is_valid 5 30 = true ∧
    cheb (5, 10) (5, 30) = 20 ∧
    gmC5.is_valid 5 10 = false ∧
    find_nearest_valid_point gmC5 (5, 10) 20 = none ∧
    find_path gmC5 sqrt_approx 5 (5/9, 1/4) (5/9, 3/4) true = none :=
  ⟨by decide, by decide, by decide, by decide, by decide⟩

set_option maxRecDepth 8000 in
set_option maxHeartbeats 2000000 in
/-- C5 witness: the replacement search succeeds at ring radius 1 on the
grid of example run 2, and fails on the all-blocked `gmC5`. -/
theorem c5_amended_witness :
    gmS2.is_valid 2 2 = true ∧ 1 ≤ cheb (3, 3) (2, 2) ∧ cheb (3, 3) (2, 2) ≤ 19 ∧
    find_path gmC5 sqrt_approx 7 (5/9, 1/4) (5/9, 3/4) true = none := by
  have h1 := (c5_nearest_valid_amended gmS2 (3, 3)).1 (2, 2) (by decide)
  have h3 := (c5_nearest_valid_amended gmC5 (5, 10)).2.2 sqrt_approx 7 (5/9, 1/4)
    (5/9, 3/4) true (by decide) (by decide)
  exact ⟨h1.1, h1.2.1, h1.2.2.1, h3⟩

/-- A segment step of the detour loop only ever appends to the output
accumulated so far. -/
theorem detour_step_append (gm : GridMap) (sq : ℚ → ℚ) (fuel : ℕ)
    (acc : List (ℚ × ℚ)) (seg : (ℚ × ℚ) × (ℚ × ℚ)) :
    ∃ t, detour_step gm sq fuel acc seg = acc ++ t := by
  obtain ⟨cur, nxt⟩ := seg
  by_cases hc : segment_collides_with_obstacles gm cur nxt = true
  · cases hfp : find_path gm sq fuel cur nxt true with
    | some p =>
      by_cases hlen : 2 < p.length
      · exact ⟨p.drop 1, by simp [detour_step, hc, hfp, hlen]⟩
      · by_cases hm : nxt ∈ acc
        · exact ⟨[], by simp [detour_step, hc, hfp, hlen, hm]⟩
        · exact ⟨[nxt], by simp [detour_step, hc, hfp, hlen, hm]⟩
    | none =>
      by_cases hm : nxt ∈ acc
      · exact ⟨[], by simp [detour_step, hc, hfp, hm]⟩
      · exact ⟨[nxt], by simp [detour_step, hc, hfp, hm]⟩
  · by_cases hm : nxt ∈ acc
    · exact ⟨[], by simp [detour_step, hc, hm]⟩
    · exact ⟨[nxt], by simp [detour_step, hc, hm]⟩

/-- Membership in the output survives a segment step. -/
theorem detour_step_mem (gm : GridMap) (sq : ℚ → ℚ) (fuel : ℕ)
    (acc : List (ℚ × ℚ)) (seg : (ℚ × ℚ) × (ℚ × ℚ)) (a : ℚ × ℚ) (ha : a ∈ acc) :
    a ∈ detour_step gm sq fuel acc seg := by
  obtain ⟨t, ht⟩ := detour_step_append gm sq fuel acc seg
  rw [ht]
  exact List.mem_append_left t ha

/-- Membership in the output survives the whole segment loop. -/
theorem detour_fold_mem (gm : GridMap) (sq : ℚ → ℚ) (fuel : ℕ) :
    ∀ (l : List ((ℚ × ℚ) × (ℚ × ℚ))) (acc : List (ℚ × ℚ)) (a : ℚ × ℚ), a ∈ acc →
      a ∈ l.foldl (detour_step gm sq fuel) acc
  | [], acc, a, ha => ha
  | s :: l, acc, a, ha =>
    detour_fold_mem gm sq fuel l _ a (detour_step_mem gm sq fuel acc s a ha)

/-- A segment step keeps the first output entry. -/
theorem detour_step_head (gm : GridMap) (sq : ℚ → ℚ) (fuel : ℕ)
    (acc : List (ℚ × ℚ)) (seg : (ℚ × ℚ) × (ℚ × ℚ)) (h : acc ≠ []) :
    (detour_step gm sq fuel acc seg).head? = acc.head? ∧
      detour_step gm sq fuel acc seg ≠ [] := by
  obtain ⟨t, ht⟩ := detour_step_append gm sq fuel acc seg
  rw [ht]
  cases acc with
  | nil => exact absurd rfl h
  | cons a l => exact ⟨rfl, by simp⟩

/-- The segment loop keeps the first output entry. -/
theorem detour_fold_head (gm : GridMap) (sq : ℚ → ℚ) (fuel : ℕ) :
    ∀ (l : List ((ℚ × ℚ) × (ℚ × ℚ))) (acc : List (ℚ × ℚ)), acc ≠ [] →
      (l.foldl (detour_step gm sq fuel) acc).head? = acc.head?
  | [], acc, h => rfl
  | s :: l, acc, h => by
    obtain ⟨hh, hne⟩ := detour_step_head gm sq fuel acc s h
    rw [List.foldl_cons, detour_fold_head gm sq fuel l _ hne, hh]

/-- Unfolding of `filter_waypoints_with_detour` when obstacles are
present and the grid build succeeds. -/
theorem filter_cons_grid (sq cosO : ℚ → ℚ) (fuel : ℕ) (st : ObstacleManagerState)
    (w0 : ℚ × ℚ) (rest : List (ℚ × ℚ)) (bnd : Option (List (ℚ × ℚ))) (gm : GridMap)
    (hobs : ¬st.obstacles = [])
    (hgm : (build_grid_map sq cosO st (w0 :: rest) bnd).grid_map = some gm) :
    filter_waypoints_with_detour sq cosO fuel st (w0 :: rest) bnd =
      ((w0 :: rest).zip rest).foldl (detour_step gm sq fuel) [w0] := by
  simp only [filter_waypoints_with_detour]
  rw [if_neg hobs]
  simp only [hgm]

/-- Unfolding of `filter_waypoints_with_detour` when the grid build
fails: the input is returned unchanged. -/
theorem filter_cons_nogrid (sq cosO : ℚ → ℚ) (fuel : ℕ) (st : ObstacleManagerState)
    (w0 : ℚ × ℚ) (rest : List (ℚ × ℚ)) (bnd : Option (List (ℚ × ℚ)))
    (hobs : ¬st.obstacles = [])
    (hgm : (build_grid_map sq cosO st (w0 :: rest) bnd).grid_map = none) :
    filter_waypoints_with_detour sq cosO fuel st (w0 :: rest) bnd = w0 :: rest := by
  simp only [filter_waypoints_with_detour]
  rw [if_neg hobs]
  simp only [hgm]

set_option maxRecDepth 6000 in
set_option maxHeartbeats 2000000 in
/-- C10: for a non-colliding consecutive pair the segment loop appends
the pair's end waypoint only when that exact coordinate pair is not yet
anywhere in the output built so far; consequently the closed loop
`[wpA, wpB, wpA]` of example run 1 (which collides with nothing) comes
back as `[wpA, wpB]` — the repeated waypoint is omitted, not returned
verbatim. -/
theorem c10_duplicate_endpoint_omitted :
    (∀ (gm : GridMap) (sq : ℚ → ℚ) (fuel : ℕ) (acc : List (ℚ × ℚ)) (cur nxt : ℚ × ℚ),
      segment_collides_with_obstacles gm cur nxt = false →
      (nxt ∈ acc → detour_step gm sq fuel acc (cur, nxt) = acc) ∧
      (nxt ∉ acc → detour_step gm sq fuel acc (cur, nxt) = acc ++ [nxt])) ∧
    filter_waypoints_with_detour sqrt_approx cos_one 1000 stS1 [wpA, wpB, wpA] none =
      [wpA, wpB] ∧
    [wpA, wpB] ≠ [wpA, wpB, wpA] := by
  refine ⟨?_, by decide, by decide⟩
  intro gm sq fuel acc cur nxt hnc
  constructor
  · intro hm
    simp [detour_step, hnc, hm]
  · intro hm
    simp [detour_step, hnc, hm]

set_option maxRecDepth 6000 in
set_option maxHeartbeats 2000000 in
/-- C10 witness: the generic non-colliding step applied to the concrete
duplicate endpoint of example run 1. -/
theorem c10_witness :
    detour_step gmS1 sqrt_approx 1000 [wpA, wpB] (wpB, wpA) = [wpA, wpB] :=
  (c10_duplicate_endpoint_omitted.1 gmS1 sqrt_approx 1000 [wpA, wpB] wpB wpA
    (by decide)).1 (by decide)

/-- C2: when a consecutive pair collides with an occupied cell but the
A* search fails (returns none) or yields a degenerate path of at most
2 points, the planner keeps the original straight segment: the original
end waypoint is in the returned list and the call as a whole returns
normally. -/
theorem c2_failed_detour_keeps_endpoint (sq cosO : ℚ → ℚ) (fuel : ℕ)
    (st : ObstacleManagerState) (wps : List (ℚ × ℚ)) (bnd : Option (List (ℚ × ℚ)))
    (gm : GridMap) (i : ℕ) (cur nxt : ℚ × ℚ)
    (hobs : ¬st.obstacles = [])
    (hgm : (build_grid_map sq cosO st wps bnd).grid_map = some gm)
    (hpair : (wps.zip wps.tail).get? i = some (cur, nxt))
    (hcol : segment_collides_with_obstacles gm cur nxt = true)
    (hfail : find_path gm sq fuel cur nxt true = none ∨
      ∃ p, find_path gm sq fuel cur nxt true = some p ∧ p.length ≤ 2) :
    nxt ∈ filter_waypoints_with_detour sq cosO fuel st wps bnd := by
  cases wps with
  | nil => simp at hpair
  | cons w0 rest =>
    rw [filter_cons_grid sq cosO fuel st w0 rest bnd gm hobs hgm]
    simp only [List.tail_cons] at hpair
    obtain ⟨hi, hget⟩ := List.get?_eq_some.mp hpair
    have hsplit : (w0 :: rest).zip rest =
        ((w0 :: rest).zip rest).take i ++ (cur, nxt) :: ((w0 :: rest).zip rest).drop (i + 1) := by
      conv_lhs => rw [← List.take_append_drop i ((w0 :: rest).zip rest)]
      rw [List.drop_eq_get_cons hi, hget]
    rw [hsplit, List.foldl_append, List.foldl_cons]
    apply detour_fold_mem
    set acc := (((w0 :: rest).zip rest).take i).foldl
      (detour_step gm sq fuel) [w0] with hacc
    rcases hfail with hnone | ⟨p, hp, hlen⟩
    · by_cases hm : nxt ∈ acc
      · simpa [detour_step, hcol, hnone, hm] using hm
      · simp [detour_step, hcol, hnone, hm]
    · by_cases hm : nxt ∈ acc
      · simpa [detour_step, hcol, hp, Nat.not_lt.mpr hlen, hm] using hm
      · simp [detour_step, hcol, hp, Nat.not_lt.mpr hlen, hm]

set_option maxRecDepth 6000 in
set_option maxHeartbeats 4000000 in
/-- C2 witness: in example run 2 the segment collides, the A* search
returns the degenerate single-point path, and the end waypoint is kept. -/
theorem c2_witness :
    wpB2 ∈ filter_waypoints_with_detour sqrt_approx cos_one 1000 stS2 [wpA2, wpB2] none :=
  c2_failed_detour_keeps_endpoint sqrt_approx cos_one 1000 stS2 [wpA2, wpB2] none gmS2
    0 wpA2 wpB2 (by decide) (by decide) (by decide) (by decide)
    (Or.inr ⟨[(1/200000, 1/200000)], by decide, by decide⟩)

/-- When no segment collides and the upcoming waypoints are fresh, the
segment loop reproduces the remaining waypoints verbatim. -/
theorem detour_fold_no_collision (gm : GridMap) (sq : ℚ → ℚ) (fuel : ℕ) :
    ∀ (cur : ℚ × ℚ) (rest : List (ℚ × ℚ)) (acc : List (ℚ × ℚ)),
      (∀ pr ∈ (cur :: rest).zip rest, segment_collides_with_obstacles gm pr.1 pr.2 = false) →
      (∀ a ∈ rest, a ∉ acc) → rest.Nodup →
      ((cur :: rest).zip rest).foldl (detour_step gm sq fuel) acc = acc ++ rest
  | cur, [], acc, _, _, _ => by simp
  | cur, r :: rs, acc, hnc, hdis, hnd => by
    rw [List.zip_cons_cons, List.foldl_cons]
    have hstep : detour_step gm sq fuel acc (cur, r) = acc ++ [r] := by
      have h1 : segment_collides_with_obstacles gm cur r = false :=
        hnc (cur, r) (by rw [List.zip_cons_cons]; exact List.mem_cons_self _ _)
      simp [detour_step, h1, hdis r (List.mem_cons_self r rs)]
    rw [hstep,
      detour_fold_no_collision gm sq fuel r rs (acc ++ [r])
        (fun pr hpr => hnc pr (by rw [List.zip_cons_cons]; exact List.mem_cons_of_mem _ hpr))
        ?_ hnd.of_cons]
    · simp
    · intro a ha
      simp only [List.mem_append, List.mem_singleton]
      rintro (h | rfl)
      · exact hdis a (List.mem_cons_of_mem r ha) h
      · exact (List.nodup_cons.mp hnd).1 ha

/-- C9 (amended): on a duplicate-free waypoint list none of whose
consecutive pairs collides on the grid the call builds,
`filter_waypoints_with_detour` returns its input unchanged, and a second
application to that result gives the same list again.  (Without the
duplicate-free condition the claim fails: see the counterexample.) -/
theorem c9_no_collision_identity_amended (sq cosO : ℚ → ℚ) (fuel : ℕ)
    (st : ObstacleManagerState) (wps : List (ℚ × ℚ)) (bnd : Option (List (ℚ × ℚ)))
    (hnodup : wps.Nodup)
    (hnc : ∀ gm, (build_grid_map sq cosO st wps bnd).grid_map = some gm →
      ∀ pr ∈ wps.zip wps.tail, segment_collides_with_obstacles gm pr.1 pr.2 = false) :
    filter_waypoints_with_detour sq cosO fuel st wps bnd = wps ∧
    filter_waypoints_with_detour sq cosO fuel st
      (filter_waypoints_with_detour sq cosO fuel st wps bnd) bnd = wps := by
  have h1 : filter_waypoints_with_detour sq cosO fuel st wps bnd = wps := by
    cases wps with
    | nil => rfl
    | cons w0 rest =>
      by_cases hobs : st.obstacles = []
      · simp only [filter_waypoints_with_detour]
        rw [if_pos hobs]
      · cases hgm : (build_grid_map sq cosO st (w0 :: rest) bnd).grid_map with
        | none => exact filter_cons_nogrid sq cosO fuel st w0 rest bnd hobs hgm
        | some gm =>
          rw [filter_cons_grid sq cosO fuel st w0 rest bnd gm hobs hgm]
          rw [detour_fold_no_collision gm sq fuel w0 rest [w0]
            (by
              intro pr hpr
              exact hnc gm hgm pr (by simpa using hpr))
            (by
              intro a ha
              simp only [List.mem_singleton]
              rintro rfl
              exact (List.nodup_cons.mp hnodup).1 ha)
            hnodup.of_cons]
          rfl
  exact ⟨h1, by rw [h1, h1]⟩

/-- C9 witness: a single-waypoint list with the obstacle registry of
example run 1 (no consecutive pairs at all, trivially duplicate-free). -/
theorem c9_witness :
    filter_waypoints_with_detour sqrt_approx cos_one 1000 stS1 [wpA] none = [wpA] ∧
    filter_waypoints_with_detour sqrt_approx cos_one 1000 stS1
      (filter_waypoints_with_detour sqrt_approx cos_one 1000 stS1 [wpA] none) none = [wpA] :=
  c9_no_collision_identity_amended sqrt_approx cos_one 1000 stS1 [wpA] none
    (by decide) (fun gm _ pr hpr => absurd hpr (by simp))

set_option maxRecDepth 6000 in
set_option maxHeartbeats 4000000 in
/-- C9 counterexample: the closed loop `[wpA, wpB, wpA]` of example run 1
avoids every obstacle (neither of its consecutive pairs collides on the
grid the call builds), yet the call does not return a list equal to its
input — the duplicate final waypoint is dropped. -/
theorem c9_counterexample :
    (build_grid_map sqrt_approx cos_one stS1 [wpA, wpB, wpA] none).grid_map = some gmS1 ∧
    segment_collides_with_obstacles gmS1 wpA wpB = false ∧
    segment_collides_with_obstacles gmS1 wpB wpA = false ∧
    filter_waypoints_with_detour sqrt_approx cos_one 1000 stS1 [wpA, wpB, wpA] none ≠
      [wpA, wpB, wpA] :=
  ⟨by decide, by decide, by decide, by decide⟩

/-- Once the cursor reaches the end of the path, the smoothing loop
stops. -/
theorem smooth_loop_done (gm : GridMap) (path : List (ℚ × ℚ)) (fuel idx : ℕ)
    (acc : List (ℚ × ℚ)) (h : path.length - 1 ≤ idx) :
    smooth_loop gm path fuel idx acc = acc := by
  cases fuel with
  | zero => rfl
  | succ f =>
    simp only [smooth_loop]
    rw [if_neg (by omega)]

/-- The farthest-visible index stays between `idx + 1` and the last
index. -/
theorem find_farthest_visible_bounds (gm : GridMap) (path : List (ℚ × ℚ)) (idx : ℕ)
    (h : idx + 1 ≤ path.length - 1) :
    idx + 1 ≤ find_farthest_visible gm path idx ∧
      find_farthest_visible gm path idx ≤ path.length - 1 := by
  unfold find_farthest_visible
  cases hf : ((List.range' (idx + 1) (path.length - 1 - idx)).reverse).find?
      (fun t => has_line_of_sight gm (path.getD idx (0, 0)) (path.getD t (0, 0))) with
  | none =>
    simp only [hf, Option.getD_none]
    omega
  | some t =>
    have hmem := List.mem_of_find?_eq_some hf
    rw [List.mem_reverse, List.mem_range'_1] at hmem
    simp only [hf, Option.getD_some]
    omega

/-- While the cursor is short of the end, the smoothing loop's result
ends at the path's last point. -/
theorem smooth_loop_last (gm : GridMap) (path : List (ℚ × ℚ)) :
    ∀ (fuel idx : ℕ) (acc : List (ℚ × ℚ)),
      idx < path.length - 1 → path.length - 1 - idx ≤ fuel →
      (smooth_loop gm path fuel idx acc).getLast? =
        some (path.getD (path.length - 1) (0, 0))
  | 0, idx, acc, h1, h2 => by omega
  | fuel + 1, idx, acc, h1, h2 => by
    simp only [smooth_loop]
    rw [if_pos h1]
    obtain ⟨hb1, hb2⟩ := find_farthest_visible_bounds gm path idx (by omega)
    by_cases hgt : idx + 1 < find_farthest_visible gm path idx
    · rw [if_pos hgt]
      by_cases hend : find_farthest_visible gm path idx < path.length - 1
      · exact smooth_loop_last gm path fuel (find_farthest_visible gm path idx) _ hend (by omega)
      · have hfveq : find_farthest_visible gm path idx = path.length - 1 := by omega
        rw [smooth_loop_done gm path fuel _ _ (by omega), hfveq, List.getLast?_concat]
    · rw [if_neg hgt]
      by_cases hend : idx + 1 < path.length - 1
      · exact smooth_loop_last gm path fuel (idx + 1) _ hend (by omega)
      · have hidx : idx + 1 = path.length - 1 := by omega
        rw [smooth_loop_done gm path fuel _ _ (by omega), hidx, List.getLast?_concat]

/-- Path smoothing preserves the final point. -/
theorem smooth_path_last (gm : GridMap) (path : List (ℚ × ℚ)) (h : path ≠ []) :
    (smooth_path gm path).getLast? = path.getLast? := by
  unfold smooth_path
  split_ifs with hlen
  · rfl
  · push_neg at hlen
    rw [smooth_loop_last gm path path.length 0 [path.headD (0, 0)] (by omega) (by omega)]
    have hlt : path.length - 1 < path.length := by omega
    rw [List.getLast?_eq_get?, List.get?_eq_get hlt, List.getD_eq_get path (0, 0) hlt]

/-- Unfolding of `find_path` when the start endpoint cannot be snapped. -/
theorem find_path_none_start (gm : GridMap) (sq : ℚ → ℚ) (fuel : ℕ)
    (s e : ℚ × ℚ) (ad : Bool) (hs : snap_cell gm s = none) :
    find_path gm sq fuel s e ad = none := by
  unfold find_path
  rw [hs]

/-- Unfolding of `find_path` when the end endpoint cannot be snapped. -/
theorem find_path_none_end (gm : GridMap) (sq : ℚ → ℚ) (fuel : ℕ)
    (s e : ℚ × ℚ) (ad : Bool) (sg : ℤ × ℤ)
    (hs : snap_cell gm s = some sg) (he : snap_cell gm e = none) :
    find_path gm sq fuel s e ad = none := by
  unfold find_path
  rw [hs, he]

/-- Unfolding of `find_path` when the A* loop fails. -/
theorem find_path_run_none (gm : GridMap) (sq : ℚ → ℚ) (fuel : ℕ)
    (s e : ℚ × ℚ) (ad : Bool) (sg eg : ℤ × ℤ)
    (hs : snap_cell gm s = some sg) (he : snap_cell gm e = some eg)
    (hrun : astar_loop gm sq ad eg fuel [SNode.root sg 0 0 0] [] [(sg, 0)] = none) :
    find_path gm sq fuel s e ad = none := by
  unfold find_path
  rw [hs, he]
  show (match astar_loop gm sq ad eg fuel [SNode.root sg 0 0 0] [] [(sg, 0)] with
    | some cells => some (smooth_path gm (cells.map (fun c => gm.grid_to_latlon c.1 c.2)))
    | none => none) = none
  rw [hrun]

/-- Unfolding of `find_path` when the A* loop returns a cell path. -/
theorem find_path_run_some (gm : GridMap) (sq : ℚ → ℚ) (fuel : ℕ)
    (s e : ℚ × ℚ) (ad : Bool) (sg eg : ℤ × ℤ) (cells : List (ℤ × ℤ))
    (hs : snap_cell gm s = some sg) (he : snap_cell gm e = some eg)
    (hrun : astar_loop gm sq ad eg fuel [SNode.root sg 0 0 0] [] [(sg, 0)] = some cells) :
    find_path gm sq fuel s e ad =
      some (smooth_path gm (cells.map (fun c => gm.grid_to_latlon c.1 c.2))) := by
  unfold find_path
  rw [hs, he]
  show (match astar_loop gm sq ad eg fuel [SNode.root sg 0 0 0] [] [(sg, 0)] with
    | some cells => some (smooth_path gm (cells.map (fun c => gm.grid_to_latlon c.1 c.2)))
    | none => none) =
    some (smooth_path gm (cells.map (fun c => gm.grid_to_latlon c.1 c.2)))
  rw [hrun]

/-- A successful `find_path` run ends at the coordinates of the snapped
(possibly relocated) end cell. -/
theorem find_path_some_last (gm : GridMap) (sq : ℚ → ℚ) (fuel : ℕ)
    (s e : ℚ × ℚ) (ad : Bool) (p : List (ℚ × ℚ))
    (h : find_path gm sq fuel s e ad = some p) :
    ∃ ec, snap_cell gm e = some ec ∧
      p.getLast? = some (gm.grid_to_latlon ec.1 ec.2) := by
  cases hs : snap_cell gm s with
  | none =>
    rw [find_path_none_start gm sq fuel s e ad hs] at h
    exact absurd h (by simp)
  | some sg =>
    cases he : snap_cell gm e with
    | none =>
      rw [find_path_none_end gm sq fuel s e ad sg hs he] at h
      exact absurd h (by simp)
    | some eg =>
      cases hrun : astar_loop gm sq ad eg fuel [SNode.root sg 0 0 0] [] [(sg, 0)] with
      | none =>
        rw [find_path_run_none gm sq fuel s e ad sg eg hs he hrun] at h
        exact absurd h (by simp)
      | some cells =>
        have hval := find_path_run_some gm sq fuel s e ad sg eg cells hs he hrun
        rw [hval] at h
        obtain rfl : p = smooth_path gm (cells.map (fun c => gm.grid_to_latlon c.1 c.2)) :=
          (Option.some.inj h).symm
        obtain ⟨n, hchain, hpos, rfl⟩ := astar_loop_some_chain gm sq ad eg fuel
          [SNode.root sg 0 0 0] [] [(sg, 0)] cells hrun
          (by
            intro nd hnd
            have hnd' : nd = SNode.root sg 0 0 0 := by simpa using hnd
            rw [hnd']
            trivial)
        refine ⟨eg, rfl, ?_⟩
        rw [smooth_path_last gm _ (by simp [path_positions_ne_nil])]
        rw [List.getLast?_map, path_positions_last n, hpos]
        rfl

/-- C1 (amended): the returned list always begins at the first original
waypoint; a straight-kept segment ends at its original end waypoint
(appended unless that exact coordinate pair already occurs in the output,
in which case the step leaves the output unchanged); a segment replaced
by an A* detour of more than 2 points instead ends at
`grid_to_latlon` of the snapped (possibly relocated) end cell, which in
general differs from the original endpoint. -/
theorem c1_segment_endpoints_amended (sq cosO : ℚ → ℚ) (fuel : ℕ) :
    (∀ (st : ObstacleManagerState) (wps : List (ℚ × ℚ)) (bnd : Option (List (ℚ × ℚ))),
      (filter_waypoints_with_detour sq cosO fuel st wps bnd).head? = wps.head?) ∧
    (∀ (gm : GridMap) (acc : List (ℚ × ℚ)) (cur nxt : ℚ × ℚ),
      segment_collides_with_obstacles gm cur nxt = false →
      (nxt ∉ acc → (detour_step gm sq fuel acc (cur, nxt)).getLast? = some nxt) ∧
      (nxt ∈ acc → detour_step gm sq fuel acc (cur, nxt) = acc)) ∧
    (∀ (gm : GridMap) (acc : List (ℚ × ℚ)) (cur nxt : ℚ × ℚ) (p : List (ℚ × ℚ)),
      segment_collides_with_obstacles gm cur nxt = true →
      find_path gm sq fuel cur nxt true = some p → 2 < p.length →
      ∃ ec, snap_cell gm nxt = some ec ∧
        (detour_step gm sq fuel acc (cur, nxt)).getLast? =
          some (gm.grid_to_latlon ec.1 ec.2)) := by
  refine ⟨?_, ?_, ?_⟩
  · intro st wps bnd
    cases wps with
    | nil => rfl
    | cons w0 rest =>
      by_cases hobs : st.obstacles = []
      · simp only [filter_waypoints_with_detour]
        rw [if_pos hobs]
      · cases hgm : (build_grid_map sq cosO st (w0 :: rest) bnd).grid_map with
        | none => rw [filter_cons_nogrid sq cosO fuel st w0 rest bnd hobs hgm]
        | some gm =>
          rw [filter_cons_grid sq cosO fuel st w0 rest bnd gm hobs hgm]
          exact detour_fold_head gm sq fuel _ [w0] (by simp)
  · intro gm acc cur nxt hnc
    refine ⟨fun hm => ?_, fun hm => ?_⟩
    · simp [detour_step, hnc, hm, List.getLast?_concat]
    · simp [detour_step, hnc, hm]
  · intro gm acc cur nxt p hcol hfp hlen
    obtain ⟨ec, hec, hlast⟩ := find_path_some_last gm sq fuel cur nxt true p hfp
    refine ⟨ec, hec, ?_⟩
    have hstep : detour_step gm sq fuel acc (cur, nxt) = acc ++ p.drop 1 := by
      simp [detour_step, hcol, hfp, hlen]
    have hdrop_ne : p.drop 1 ≠ [] := by
      intro hc
      have hl := List.length_drop 1 p
      rw [hc] at hl
      simp only [List.length_nil] at hl
      omega
    rw [hstep, List.getLast?_append_of_ne_nil acc hdrop_ne]
    have hdl : (p.drop 1).getLast? = p.getLast? := by
      conv_rhs => rw [← List.take_append_drop 1 p]
      rw [List.getLast?_append_of_ne_nil _ hdrop_ne]
    rw [hdl, hlast]

set_option maxRecDepth 8000 in
set_option maxHeartbeats 8000000 in
/-- C1 counterexample: in example run 5 the single segment collides and
is replaced by an A* detour, and the returned list does not end at the
original end waypoint `wpB5` — it ends at the grid-snapped coordinates of
the end cell. -/
theorem c1_counterexample :
    segment_collides_with_obstacles gmS5 wpA5 wpB5 = true ∧
    (filter_waypoints_with_detour sqrt_approx cos_one 100000 stS5
      [wpA5, wpB5] none).getLast? ≠ some wpB5 :=
  ⟨by decide, by decide⟩

set_option maxRecDepth 8000 in
set_option maxHeartbeats 8000000 in
/-- C1 witness: the head-preservation clause at example run 1, and the
detour clause at the concrete detour of example run 5. -/
theorem c1_amended_witness :
    (filter_waypoints_with_detour sqrt_approx cos_one 1000 stS1
      [wpA, wpB, wpA] none).head? = some wpA ∧
    (∃ ec, snap_cell gmS5 wpB5 = some ec ∧
      (detour_step gmS5 sqrt_approx 100000 [wpA5] (wpA5, wpB5)).getLast? =
        some (gmS5.grid_to_latlon ec.1 ec.2)) :=
  ⟨(c1_segment_endpoints_amended sqrt_approx cos_one 1000).1 stS1 [wpA, wpB, wpA] none,
   (c1_segment_endpoints_amended sqrt_approx cos_one 100000).2.2 gmS5 [wpA5] wpA5 wpB5 pS5
     (by decide) (by decide) (by decide)⟩
